import Mathlib

/-!
# towd-bench: the load generator of `src/main.go`

A shallow embedding of the benchmark client and the properties of its
latency aggregator, ramp controller, request worker, start-up checks and
payload generator.

Modelling conventions

* `float64` is `Float64`, IEEE-754 binary64: a finite value is carried as the
  rational it denotes, next to `-0`, `+Inf`, `-Inf` and `NaN`.  Every arithmetic
  result is rounded to the nearest binary64 value, ties to even
  (`Float64.ofRat`), with overflow to an infinity and gradual underflow;
  division by zero gives `NaN` or an infinity and never faults, as in Go.
* Go's `int` is the 64-bit two's complement integer (`wrapInt64`).
* Go strings are `String`s; only equality with `""`, suffix test, slicing and
  concatenation are used.
* Goroutines advance one step at a time: a receive on `latencyCh`, one of the
  four steps of a tick (lines 92-95, 96, 97, 98), an iteration of a loop.  No
  lock orders the steps of different goroutines; the interleaving is what the
  caller of the step functions chooses.
-/

namespace TowdBench

/-! ## float64 -/

/-- The values of Go's `float64`.  `fin 0` is `+0`. -/
inductive Float64 where
  | fin (q : ℚ)
  | negZero
  | posInf
  | negInf
  | nan
  deriving DecidableEq

namespace Float64

/-- The constant `0.0`. -/
def zero : Float64 := fin 0

/-- Exponent of the unit in the last place at magnitude `a`: 52 below the
binary exponent of `a`, which is held at `-1022` in the subnormal range. -/
def ulpExp (a : ℚ) : ℤ := max (Int.log 2 a) (-1022) - 52

/-- The integer nearest to `m`, the even one of the two when `m` lies half-way. -/
def roundHalfEven (m : ℚ) : ℤ :=
  if m - ⌊m⌋ < 1 / 2 then ⌊m⌋
  else if 1 / 2 < m - ⌊m⌋ then ⌊m⌋ + 1
  else if ⌊m⌋ % 2 = 0 then ⌊m⌋
  else ⌊m⌋ + 1

/-- The multiple of the unit in the last place nearest to the magnitude `a`,
ties to even. -/
def nearest (a : ℚ) : ℚ := (roundHalfEven (a / 2 ^ ulpExp a) : ℚ) * 2 ^ ulpExp a

/-- Rounding of the exact result `q` to binary64: round to nearest, ties to
even; a magnitude that rounds to `2^1024` or more overflows to an infinity, and
a negative one that rounds to zero gives `-0`. -/
def ofRat (q : ℚ) : Float64 :=
  if 2 ^ (1024 : ℤ) ≤ nearest |q| then (if 0 < q then posInf else negInf)
  else if nearest |q| = 0 then (if 0 ≤ q then fin 0 else negZero)
  else fin (if 0 < q then nearest |q| else -nearest |q|)

/-- Conversion `float64(n)` of an integer: the nearest binary64 value. -/
def ofInt (n : Int) : Float64 := ofRat n

/-- Addition `x + y` on `float64`. -/
def add : Float64 → Float64 → Float64
  | nan, _ => nan
  | _, nan => nan
  | posInf, negInf => nan
  | negInf, posInf => nan
  | posInf, _ => posInf
  | _, posInf => posInf
  | negInf, _ => negInf
  | _, negInf => negInf
  | negZero, negZero => negZero
  | negZero, fin b => ofRat b
  | fin a, negZero => ofRat a
  | fin a, fin b => ofRat (a + b)

/-- Division `x / y` on `float64`: total, a zero divisor gives `NaN` or an
infinity and never a run-time fault. -/
def div : Float64 → Float64 → Float64
  | nan, _ => nan
  | _, nan => nan
  | posInf, posInf => nan
  | posInf, negInf => nan
  | negInf, posInf => nan
  | negInf, negInf => nan
  | posInf, fin b => if 0 ≤ b then posInf else negInf
  | posInf, negZero => negInf
  | negInf, fin b => if 0 ≤ b then negInf else posInf
  | negInf, negZero => posInf
  | fin a, posInf => if 0 ≤ a then fin 0 else negZero
  | fin a, negInf => if 0 ≤ a then negZero else fin 0
  | negZero, posInf => negZero
  | negZero, negInf => fin 0
  | negZero, negZero => nan
  | negZero, fin b => if b = 0 then nan else if 0 < b then negZero else fin 0
  | fin a, negZero => if a = 0 then nan else if 0 < a then negInf else posInf
  | fin a, fin b =>
      if b = 0 then
        if a = 0 then nan else if 0 < a then posInf else negInf
      else if a = 0 then
        if 0 < b then fin 0 else negZero
      else ofRat (a / b)

/-- Order `x <= y` on `float64` (false when either side is `NaN`). -/
def le : Float64 → Float64 → Bool
  | nan, _ => false
  | _, nan => false
  | negInf, _ => true
  | _, posInf => true
  | posInf, _ => false
  | _, negInf => false
  | negZero, negZero => true
  | negZero, fin b => decide (0 ≤ b)
  | fin a, negZero => decide (a ≤ 0)
  | fin a, fin b => decide (a ≤ b)

end Float64

/-! ## Latency aggregator (`main`, lines 80-100) -/

/-- Where the drain goroutine of lines 84-88 is waiting: at the receive of
`for range latencyCh` or at the receive `<-latencyCh` inside the loop body. -/
inductive DrainPc where
  | rangeRecv
  | bodyRecv
  deriving DecidableEq

/-- State of the aggregator goroutines: the control point of the drain loop, the
shared slice `latencies`, the tick loop's local `totalRequestLatency`, and the
two gauges written by the tick loop.  `discarded` is a ghost field listing the
values received and not stored. -/
structure Aggregator where
  drainAt : DrainPc
  latencies : List Float64
  discarded : List Float64
  totalRequestLatency : Float64
  metricsLatencyPerRequest : Float64
  metricsRequestsPerSecond : Float64
  deriving DecidableEq

/-- State when the goroutines start: `latencies := make([]float64, 0)`, the drain
loop at its loop head, gauges at their initial value 0. -/
def Aggregator.init : Aggregator :=
  { drainAt := .rangeRecv, latencies := [], discarded := [],
    totalRequestLatency := Float64.zero,
    metricsLatencyPerRequest := Float64.zero, metricsRequestsPerSecond := Float64.zero }

/-- One receive by the drain goroutine of the value `v` at the head of the channel.
At `for range latencyCh` the received value is bound to nothing and control
enters the body; at `<-latencyCh` the received value is appended to `latencies`
and control returns to the loop head. -/
def drainRecv (s : Aggregator) (v : Float64) : Aggregator :=
  match s.drainAt with
  | .rangeRecv => { s with drainAt := .bodyRecv, discarded := s.discarded ++ [v] }
  | .bodyRecv => { s with drainAt := .rangeRecv, latencies := s.latencies ++ [v] }

/-- The drain loop run on the samples `delivered` on the channel in this order,
no step of the tick loop in between. -/
def drain (s : Aggregator) (delivered : List Float64) : Aggregator :=
  delivered.foldl drainRecv s

/-- The loop `for _, latency := range latencies { totalRequestLatency += latency }`
started from `totalRequestLatency := 0.0`, over the slice as it is when the
`range` clause is evaluated. -/
def sumLatencies (latencies : List Float64) : Float64 :=
  latencies.foldl Float64.add Float64.zero

/-- Lines 92-95 of a tick: the sum of the slice read at line 93. -/
def tickSum (s : Aggregator) : Aggregator :=
  { s with totalRequestLatency := sumLatencies s.latencies }

/-- Line 96 of a tick: the average-latency gauge is set from the local sum and
the length of the slice read now. -/
def tickSetLatency (s : Aggregator) : Aggregator :=
  { s with
    metricsLatencyPerRequest :=
      Float64.div s.totalRequestLatency (Float64.ofInt s.latencies.length) }

/-- Line 97 of a tick: the requests-per-second gauge is set from the length of
the slice read now. -/
def tickSetRate (s : Aggregator) : Aggregator :=
  { s with
    metricsRequestsPerSecond :=
      Float64.div (Float64.ofInt s.latencies.length) (Float64.fin 5) }

/-- Line 98 of a tick: `latencies = make([]float64, 0)`. -/
def tickReset (s : Aggregator) : Aggregator :=
  { s with latencies := [] }

/-- One tick of the 5-second ticker (lines 92-98) with the drain goroutine
running beside it: it receives `d₁` between lines 95 and 96, `d₂` between lines
96 and 97 and `d₃` between lines 97 and 98. -/
def tickInterleaved (s : Aggregator) (d₁ d₂ d₃ : List Float64) : Aggregator :=
  tickReset (drain (tickSetRate (drain (tickSetLatency (drain (tickSum s) d₁)) d₂)) d₃)

/-- One tick of the 5-second ticker (lines 92-98) during which the drain
goroutine receives nothing. -/
def tick (s : Aggregator) : Aggregator :=
  tickInterleaved s [] [] []

/-! ## Endpoint and start-up checks (`main`, lines 102-111 and 151-154) -/

/-- Go's `strings.HasSuffix(s, suffix)`:
`len(s) >= len(suffix) && s[len(s)-len(suffix):] == suffix`. -/
def HasSuffix (s suffix : String) : Bool :=
  decide (s.length ≥ suffix.length) && (s.data.drop (s.length - suffix.length) == suffix.data)

/-- Go's `strings.TrimSuffix(s, suffix)`: `s` without the trailing `suffix` when
`s` ends in it, `s` unchanged otherwise. -/
def TrimSuffix (s suffix : String) : String :=
  if HasSuffix s suffix then String.mk (s.data.take (s.length - suffix.length)) else s

/-- Line 106, with `endpoint` holding the value of `SERVER_BASE_URL`:
`strings.TrimSuffix("/", endpoint) + "/kanban/save"`. -/
def endpointOf (endpoint : String) : String :=
  TrimSuffix "/" endpoint ++ "/kanban/save"

/-- The steps `main` itself takes that are visible outside it, in program
order.  Workers are spawned, and requests sent, only by the goroutine that
`goRampController` launches. -/
inductive Action where
  | randomKanbanTable
  | jsonMarshal
  | register
  | goAggregator
  | getenv (name : String)
  | abort (msg : String)
  | goRampController (endpoint sessionSecret : String)
  | listenAndServe (addr : String)
  deriving DecidableEq

/-- Steps of `main` up to the first environment lookup (lines 73-100). -/
def mainPrelude : List Action :=
  [.randomKanbanTable, .jsonMarshal, .register, .goAggregator]

/-- The function `main` as the list of its steps, `getenv` being `os.Getenv`
(an unset variable reads as `""`).  A `panic` is the step `abort`, after which
nothing follows. -/
def main (getenv : String → String) : List Action :=
  let endpoint := getenv "SERVER_BASE_URL"
  if endpoint == "" then
    mainPrelude ++ [.getenv "SERVER_BASE_URL", .abort "SERVER_BASE_URL is not set"]
  else
    let endpoint := endpointOf endpoint
    let sessionSecret := getenv "SESSION_SECRET"
    if sessionSecret == "" then
      mainPrelude ++ [.getenv "SERVER_BASE_URL", .getenv "SESSION_SECRET",
        .abort "SESSION_SECRET is not set"]
    else
      mainPrelude ++ [.getenv "SERVER_BASE_URL", .getenv "SESSION_SECRET",
        .goRampController endpoint sessionSecret, .listenAndServe ":2112"]

/-- The step is a panic. -/
def Action.isAbort : Action → Bool
  | .abort _ => true
  | _ => false

/-- The step launches the ramp controller, the only source of Workers and of
outbound requests. -/
def Action.isGoRampController : Action → Bool
  | .goRampController _ _ => true
  | _ => false

/-- The step starts the metrics listener. -/
def Action.isListenAndServe : Action → Bool
  | .listenAndServe _ => true
  | _ => false

/-! ## Ramp controller (`main`, lines 115-149) -/

/-- Two's complement wrap-around of a 64-bit signed integer. -/
def wrapInt64 (n : Int) : Int := (n + 2 ^ 63) % 2 ^ 64 - 2 ^ 63

/-- State of the ramp controller.  `workersSpawned` counts the executions of the
`go` statement of line 119 and `intervalsSlept` those of `time.Sleep` (both
ghost); `currClientCount` is the Go variable and `metricsClientCount` the
gauge. -/
structure Ramp where
  currClientCount : Int
  metricsClientCount : Float64
  workersSpawned : Nat
  intervalsSlept : Nat
  deriving DecidableEq

/-- State at line 115: `currClientCount := 0`, gauge at its initial value. -/
def Ramp.init : Ramp :=
  { currClientCount := 0, metricsClientCount := Float64.zero, workersSpawned := 0,
    intervalsSlept := 0 }

/-- The loop `for range 10 { go func() {...}() }` of lines 118-144. -/
def spawnWorkers (r : Ramp) : Ramp :=
  (List.range 10).foldl (fun r _ => { r with workersSpawned := r.workersSpawned + 1 }) r

/-- Lines 118-146 of one iteration: spawn, `currClientCount += 10`, publish. -/
def rampSpawn (r : Ramp) : Ramp :=
  let r := spawnWorkers r
  let c := wrapInt64 (r.currClientCount + 10)
  { r with currClientCount := c, metricsClientCount := Float64.ofInt c }

/-- Line 147: `time.Sleep(10 * time.Minute)`. -/
def rampSleep (r : Ramp) : Ramp :=
  { r with intervalsSlept := r.intervalsSlept + 1 }

/-- State once the spawn iteration that follows `t` full ramp intervals is done. -/
def rampAfter : Nat → Ramp
  | 0 => rampSpawn Ramp.init
  | t + 1 => rampSpawn (rampSleep (rampAfter t))

/-! ## Request worker (`main`, lines 128-142) -/

/-- What the outside world does during one iteration of a Worker's loop. -/
structure Attempt where
  /-- True when `err != nil` after `http.DefaultClient.Do(req)`. -/
  doFails : Bool
  /-- True when `err != nil` after `io.ReadAll(resp.Body)`. -/
  readFails : Bool
  /-- Value of `time.Since(startTimer).Microseconds()` at line 141. -/
  elapsedMicros : Int

/-- How an iteration of `for { ... }` hands over control. -/
inductive Control where
  | nextIteration
  | exitLoop
  deriving DecidableEq

/-- Effects of one iteration of the loop. -/
structure Iteration where
  sent : List Float64
  logged : List String
  control : Control
  deriving DecidableEq

/-- One iteration of the Worker's loop (lines 129-141). -/
def workerIteration (a : Attempt) : Iteration :=
  if a.doFails then
    { sent := [], logged := ["error sending request"], control := .nextIteration }
  else if a.readFails then
    { sent := [], logged := ["error reading response body"], control := .nextIteration }
  else
    { sent := [Float64.ofInt a.elapsedMicros], logged := [], control := .nextIteration }

/-- The Worker's loop on the given attempts: the values it sends on `latencyCh`
and the attempts left untried when the loop exits. -/
def workerLoop : List Attempt → List Float64 × List Attempt
  | [] => ([], [])
  | a :: rest =>
      match (workerIteration a).control with
      | .nextIteration =>
          ((workerIteration a).sent ++ (workerLoop rest).1, (workerLoop rest).2)
      | .exitLoop => ((workerIteration a).sent, rest)

/-! ## Payload generator (`RandomKanbanTable`, lines 19-55) -/

structure KanbanItemReqRespBody where
  ID : Int
  Content : String
  deriving DecidableEq

structure KanbanGroupReqRespBody where
  Name : String
  Items : List KanbanItemReqRespBody
  deriving DecidableEq

structure KanbanTableReqRespBody where
  TableName : String
  Groups : List KanbanGroupReqRespBody
  deriving DecidableEq

/-- Body of the inner loop (lines 40-43) for group `i` and item `j`.  The state
is the slice `items` with the number of calls of `uuid.New()` made so far;
`uuid n` is the string of the `n`-th call. -/
def setItem (uuid : Nat → String) (i : Nat) (acc : List KanbanItemReqRespBody × Nat) (j : Nat) :
    List KanbanItemReqRespBody × Nat :=
  (acc.1.set j { ID := ((i * 20 + j : Nat) : Int), Content := uuid acc.2 }, acc.2 + 1)

/-- Lines 38-44 for group `i`: `items := make([]KanbanItemReqRespBody, 20)` and
the loop `for j := range 20` filling it. -/
def randomItems (uuid : Nat → String) (i : Nat) (calls : Nat) :
    List KanbanItemReqRespBody × Nat :=
  (List.range 20).foldl (setItem uuid i) (List.replicate 20 { ID := 0, Content := "" }, calls)

/-- Body of the outer loop (lines 38-49) for group `i`: build the items, then
store the group under a fresh name. -/
def setGroup (uuid : Nat → String) (acc : List KanbanGroupReqRespBody × Nat) (i : Nat) :
    List KanbanGroupReqRespBody × Nat :=
  let items := randomItems uuid i acc.2
  (acc.1.set i { Name := uuid items.2, Items := items.1 }, items.2 + 1)

/-- Lines 36-50: `kanbanGroups := make([]KanbanGroupReqRespBody, 10)` and the
loop `for i := range 10` filling it. -/
def randomGroups (uuid : Nat → String) : List KanbanGroupReqRespBody × Nat :=
  (List.range 10).foldl (setGroup uuid) (List.replicate 10 { Name := "", Items := [] }, 0)

/-- The function `RandomKanbanTable`, the random strings given by `uuid`. -/
def RandomKanbanTable (uuid : Nat → String) : KanbanTableReqRespBody :=
  let groups := randomGroups uuid
  { TableName := uuid groups.2, Groups := groups.1 }

/-! ## Positions in a delivered sequence -/

/-- The elements at the even positions `s2, s4, ...` of `s1, s2, s3, ...`
(positions counted from 1). -/
def evenPositions {α : Type} : List α → List α
  | [] => []
  | [_] => []
  | _ :: b :: rest => b :: evenPositions rest

/-- The elements at the odd positions `s1, s3, ...` of `s1, s2, s3, ...`
(positions counted from 1). -/
def oddPositions {α : Type} : List α → List α
  | [] => []
  | [a] => [a]
  | a :: _ :: rest => a :: oddPositions rest

/-! ## Theorems: float64 rounding -/

theorem roundHalfEven_intCast (k : ℤ) : Float64.roundHalfEven (k : ℚ) = k := by
  unfold Float64.roundHalfEven
  simp

theorem nearest_of_multiple (a : ℚ) (k : ℤ) (hk : a / 2 ^ Float64.ulpExp a = k) :
    Float64.nearest a = a := by
  unfold Float64.nearest
  rw [hk, roundHalfEven_intCast, ← hk]
  have h2 : (2 : ℚ) ^ Float64.ulpExp a ≠ 0 := zpow_ne_zero _ (by norm_num)
  field_simp

theorem ofRat_of_nearest (q : ℚ) (h : Float64.nearest |q| = |q|) (hlt : |q| < 2 ^ (1024 : ℤ)) :
    Float64.ofRat q = Float64.fin q := by
  unfold Float64.ofRat
  rw [h, if_neg (not_le.2 hlt)]
  by_cases h0 : q = 0
  · subst h0; simp
  · rw [if_neg (by simpa using h0)]
    congr 1
    by_cases hp : 0 < q
    · rw [if_pos hp, abs_of_pos hp]
    · rw [if_neg hp, abs_of_nonpos (not_lt.1 hp), neg_neg]

theorem ulpExp_of_bounds (a : ℚ) (e : ℤ) (h₁ : 2 ^ e ≤ a) (h₂ : a < 2 ^ (e + 1)) (h₃ : -1022 ≤ e) :
    Float64.ulpExp a = e - 52 := by
  have ha : 0 < a := lt_of_lt_of_le (zpow_pos (by norm_num) e) h₁
  have hl : Int.log 2 a = e := by
    apply le_antisymm
    · have := (Int.lt_zpow_iff_log_lt (b := 2) (by norm_num) ha (x := e + 1)).1 (by exact_mod_cast h₂)
      omega
    · exact (Int.zpow_le_iff_le_log (b := 2) (by norm_num) ha).1 (by exact_mod_cast h₁)
  unfold Float64.ulpExp
  rw [hl, max_eq_left h₃]

theorem ofRat_zero : Float64.ofRat 0 = Float64.fin 0 :=
  ofRat_of_nearest 0 (by simp [Float64.nearest, Float64.roundHalfEven]) (by simp; positivity)

theorem ofRat_intCast (n : ℤ) (j : ℕ) (hlt : |n| < 2 ^ (53 + j)) (hdvd : (2 : ℤ) ^ j ∣ n) (hj : j ≤ 900) :
    Float64.ofRat (n : ℚ) = Float64.fin (n : ℚ) := by
  by_cases hn : n = 0
  · subst hn; simpa using ofRat_zero
  have hpos : 0 < |n| := abs_pos.2 hn
  have ha : 0 < |(n : ℚ)| := abs_pos.2 (by exact_mod_cast hn)
  have hcast : |(n : ℚ)| = ((|n| : ℤ) : ℚ) := by push_cast; rfl
  have hlo : (2 : ℚ) ^ (0 : ℤ) ≤ |(n : ℚ)| := by
    rw [hcast, zpow_zero]
    exact_mod_cast Int.add_one_le_iff.2 hpos
  have hhi : |(n : ℚ)| < (2 : ℚ) ^ ((53 + j : ℕ) : ℤ) := by
    rw [hcast, zpow_natCast]
    exact_mod_cast hlt
  have he₀ : 0 ≤ Int.log 2 |(n : ℚ)| :=
    (Int.zpow_le_iff_le_log (b := 2) (by norm_num) ha).1 (by exact_mod_cast hlo)
  have he₁ : Int.log 2 |(n : ℚ)| < ((53 + j : ℕ) : ℤ) :=
    (Int.lt_zpow_iff_log_lt (b := 2) (by norm_num) ha).1 (by exact_mod_cast hhi)
  have hE : Float64.ulpExp |(n : ℚ)| = Int.log 2 |(n : ℚ)| - 52 := by
    unfold Float64.ulpExp
    rw [max_eq_left (by omega)]
  apply ofRat_of_nearest
  · generalize hEe : Float64.ulpExp |(n : ℚ)| = E at hE
    rcases le_or_lt E 0 with hE0 | hE0
    · obtain ⟨i, hi⟩ : ∃ i : ℕ, E = -(i : ℤ) := ⟨(-E).toNat, by omega⟩
      apply nearest_of_multiple _ (|n| * 2 ^ i)
      rw [hEe, hi, zpow_neg, zpow_natCast, hcast]
      push_cast
      field_simp
    · obtain ⟨i, hi⟩ : ∃ i : ℕ, E = (i : ℤ) := ⟨E.toNat, by omega⟩
      have hij : i ≤ j := by push_cast at he₁; omega
      have hd : (2 : ℤ) ^ i ∣ |n| := (dvd_abs _ _).2 (dvd_trans (pow_dvd_pow 2 hij) hdvd)
      obtain ⟨c, hc⟩ := hd
      apply nearest_of_multiple _ c
      rw [hEe, hi, zpow_natCast, hcast, hc]
      push_cast
      field_simp
  · calc |(n : ℚ)| < (2 : ℚ) ^ ((53 + j : ℕ) : ℤ) := hhi
      _ ≤ 2 ^ (1024 : ℤ) := by
        apply zpow_le_zpow_right₀ (by norm_num)
        push_cast; omega


theorem roundHalfEven_of_near (m : ℚ) (n : ℤ) (h₁ : (n : ℚ) - 1 / 2 < m) (h₂ : m < n + 1 / 2) :
    Float64.roundHalfEven m = n := by
  unfold Float64.roundHalfEven
  rcases le_or_lt (n : ℚ) m with h | h
  · have hf : ⌊m⌋ = n := Int.floor_eq_iff.2 ⟨h, by linarith⟩
    rw [hf, if_pos (by linarith)]
  · have hf : ⌊m⌋ = n - 1 := Int.floor_eq_iff.2 ⟨by push_cast; linarith, by push_cast; linarith⟩
    rw [hf, if_neg (by push_cast; linarith), if_pos (by push_cast; linarith)]
    ring

theorem ofRat_of_near (q : ℚ) (e n : ℤ) (h₁ : 2 ^ e ≤ q) (h₂ : q < 2 ^ (e + 1)) (h₃ : -1022 ≤ e)
    (hn₁ : (n : ℚ) - 1 / 2 < q / 2 ^ (e - 52)) (hn₂ : q / 2 ^ (e - 52) < n + 1 / 2)
    (hn₀ : n ≠ 0) (hlt : (n : ℚ) * 2 ^ (e - 52) < 2 ^ (1024 : ℤ)) :
    Float64.ofRat q = Float64.fin ((n : ℚ) * 2 ^ (e - 52)) := by
  have hq : 0 < q := lt_of_lt_of_le (zpow_pos (by norm_num) e) h₁
  have hnear : Float64.nearest |q| = (n : ℚ) * 2 ^ (e - 52) := by
    rw [abs_of_pos hq]
    unfold Float64.nearest
    rw [ulpExp_of_bounds q e h₁ h₂ h₃, roundHalfEven_of_near _ n hn₁ hn₂]
  have h2 : (2 : ℚ) ^ (e - 52) ≠ 0 := zpow_ne_zero _ (by norm_num)
  unfold Float64.ofRat
  rw [hnear, if_neg (not_le.2 hlt), if_neg (mul_ne_zero (by exact_mod_cast hn₀) h2), if_pos hq]

theorem ofInt_natCast (n : ℕ) (h : n ≤ 2 ^ 53) :
    Float64.ofInt (n : ℤ) = Float64.fin (n : ℚ) := by
  have hz : (n : ℤ) ≤ 2 ^ 53 := by exact_mod_cast h
  have key : Float64.ofRat ((n : ℤ) : ℚ) = Float64.fin ((n : ℤ) : ℚ) := by
    rcases Nat.lt_or_ge n (2 ^ 53) with hlt | hge
    · apply ofRat_intCast (n : ℤ) 0
      · rw [abs_of_nonneg (by positivity)]
        exact_mod_cast hlt
      · simp
      · norm_num
    · have hn : n = 2 ^ 53 := le_antisymm h hge
      subst hn
      apply ofRat_intCast _ 1
      · norm_num
      · norm_num
      · norm_num
  simpa [Float64.ofInt] using key

theorem add_fin_natCast (a b : ℕ) (h : a + b ≤ 2 ^ 53) :
    Float64.add (Float64.fin (a : ℚ)) (Float64.fin (b : ℚ)) = Float64.fin ((a + b : ℕ) : ℚ) := by
  have key := ofInt_natCast (a + b) h
  simp only [Float64.ofInt] at key
  simp only [Float64.add]
  rw [← key]
  push_cast
  rfl

theorem div_fin_of_pos (a b : ℚ) (ha : 0 ≤ a) (hb : 0 < b) :
    Float64.div (Float64.fin a) (Float64.fin b) = Float64.ofRat (a / b) := by
  simp only [Float64.div]
  rw [if_neg hb.ne']
  by_cases h0 : a = 0
  · subst h0
    rw [if_pos rfl, if_pos hb, zero_div, ofRat_zero]
  · rw [if_neg h0]

/-! ## Theorems: latency aggregator -/

theorem foldl_add_samples (vs : List ℕ) (acc : ℕ) (h : acc + vs.sum ≤ 2 ^ 53) :
    (vs.map (fun v : ℕ => Float64.ofInt (v : ℤ))).foldl Float64.add (Float64.fin (acc : ℚ))
      = Float64.fin ((acc + vs.sum : ℕ) : ℚ) := by
  induction vs generalizing acc with
  | nil => simp
  | cons v vs ih =>
    rw [List.sum_cons] at h
    rw [List.map_cons, List.foldl_cons, ofInt_natCast v (by omega),
      add_fin_natCast acc v (by omega), ih (acc + v) (by omega), List.sum_cons, Nat.add_assoc]

theorem sumLatencies_samples (vs : List ℕ) (h : vs.sum ≤ 2 ^ 53) :
    sumLatencies (vs.map (fun v : ℕ => Float64.ofInt (v : ℤ))) = Float64.fin (vs.sum : ℚ) := by
  have key := foldl_add_samples vs 0 (by omega)
  simpa [sumLatencies, Float64.zero] using key

theorem drain_frame (s : Aggregator) (d : List Float64) :
    (drain s d).totalRequestLatency = s.totalRequestLatency ∧
    (drain s d).metricsLatencyPerRequest = s.metricsLatencyPerRequest ∧
    (drain s d).metricsRequestsPerSecond = s.metricsRequestsPerSecond := by
  induction d generalizing s with
  | nil => exact ⟨rfl, rfl, rfl⟩
  | cons v d ih =>
    have e : drain s (v :: d) = drain (drainRecv s v) d := rfl
    rw [e]
    obtain ⟨h₁, h₂, h₃⟩ := ih (drainRecv s v)
    rw [h₁, h₂, h₃]
    unfold drainRecv
    cases s.drainAt <;> exact ⟨rfl, rfl, rfl⟩

theorem tickInterleaved_latency_gauge (s : Aggregator) (d₁ d₂ d₃ : List Float64) :
    (tickInterleaved s d₁ d₂ d₃).metricsLatencyPerRequest
      = Float64.div (sumLatencies s.latencies)
          (Float64.ofInt ((drain (tickSum s) d₁).latencies.length : ℤ)) := by
  show (drain (tickSetRate (drain (tickSetLatency (drain (tickSum s) d₁)) d₂))
    d₃).metricsLatencyPerRequest = _
  rw [(drain_frame _ d₃).2.1]
  show (drain (tickSetLatency (drain (tickSum s) d₁)) d₂).metricsLatencyPerRequest = _
  rw [(drain_frame _ d₂).2.1]
  show Float64.div (drain (tickSum s) d₁).totalRequestLatency _ = _
  rw [(drain_frame _ d₁).1]
  rfl

theorem tickInterleaved_rate_gauge (s : Aggregator) (d₁ d₂ d₃ : List Float64) :
    (tickInterleaved s d₁ d₂ d₃).metricsRequestsPerSecond
      = Float64.div
          (Float64.ofInt
            ((drain (tickSetLatency (drain (tickSum s) d₁)) d₂).latencies.length : ℤ))
          (Float64.fin 5) := by
  show (drain (tickSetRate (drain (tickSetLatency (drain (tickSum s) d₁)) d₂))
    d₃).metricsRequestsPerSecond = _
  rw [(drain_frame _ d₃).2.2]
  rfl

/-- C1, as the code has it: at a tick that reads the sample list `v1..vk` at
each of lines 93, 96 and 97, with `1 ≤ k ≤ 2^53` and the `vi` whole microsecond
counts whose sum is at most `2^53`, the average-latency gauge is set to the
float64 nearest to `(v1 + ... + vk) / k` and the requests-per-second gauge to
the float64 nearest to `k / 5`. -/
theorem tick_average_and_rate (s : Aggregator) (vs : List ℕ) (d₁ d₂ d₃ : List Float64)
    (hk : 1 ≤ vs.length) (hk' : vs.length ≤ 2 ^ 53) (hsum : vs.sum ≤ 2 ^ 53)
    (h₉₃ : s.latencies = vs.map (fun v : ℕ => Float64.ofInt (v : ℤ)))
    (h₉₆ : (drain (tickSum s) d₁).latencies = s.latencies)
    (h₉₇ : (drain (tickSetLatency (drain (tickSum s) d₁)) d₂).latencies = s.latencies) :
    (tickInterleaved s d₁ d₂ d₃).metricsLatencyPerRequest
      = Float64.ofRat ((vs.sum : ℚ) / (vs.length : ℚ)) ∧
    (tickInterleaved s d₁ d₂ d₃).metricsRequestsPerSecond
      = Float64.ofRat ((vs.length : ℚ) / 5) := by
  have hlen : s.latencies.length = vs.length := by rw [h₉₃, List.length_map]
  have hpos : (0 : ℚ) < (vs.length : ℚ) := by
    have : 0 < vs.length := hk
    exact_mod_cast this
  constructor
  · rw [tickInterleaved_latency_gauge, h₉₆, hlen, ofInt_natCast vs.length hk', h₉₃,
      sumLatencies_samples vs hsum]
    exact div_fin_of_pos _ _ (by positivity) hpos
  · rw [tickInterleaved_rate_gauge, h₉₇, hlen, ofInt_natCast vs.length hk']
    exact div_fin_of_pos _ _ (by positivity) (by norm_num)

theorem tick_average_and_rate_witness :
    (tickInterleaved
        { Aggregator.init with latencies := [Float64.ofInt 300, Float64.ofInt 500] }
        [Float64.fin 7] [] [Float64.fin 8]).metricsLatencyPerRequest = Float64.fin 400 ∧
    (tickInterleaved
        { Aggregator.init with latencies := [Float64.ofInt 300, Float64.ofInt 500] }
        [Float64.fin 7] [] [Float64.fin 8]).metricsRequestsPerSecond
      = Float64.fin (3602879701896397 / 2 ^ 53) := by
  have h := tick_average_and_rate
    { Aggregator.init with latencies := [Float64.ofInt 300, Float64.ofInt 500] } [300, 500]
    [Float64.fin 7] [] [Float64.fin 8] (by decide) (by norm_num) (by norm_num) rfl rfl rfl
  have e₁ : Float64.ofRat (400 : ℚ) = Float64.fin 400 := by
    have := ofRat_intCast 400 0 (by norm_num) (by norm_num) (by norm_num)
    simpa using this
  have e₂ : Float64.ofRat (2 / 5) = Float64.fin (3602879701896397 / 2 ^ 53) := by
    have := ofRat_of_near (2 / 5) (-2) 7205759403792794 (by norm_num) (by norm_num)
      (by norm_num) (by norm_num) (by norm_num) (by norm_num) (by norm_num)
    rw [this]
    norm_num
  norm_num at h
  rw [e₁, e₂] at h
  exact h

/-- C1, as stated, fails: on the samples 300, 500 the requests-per-second gauge
is set to the float64 `3602879701896397 / 2^53`, not to `2 / 5`; on the samples
1, 1, 2 the average-latency gauge is set to the float64
`6004799503160661 / 2^52`, not to `4 / 3`; and when the list is 300, 500 at
line 93 and the drain loop appends a sample before line 96, the sum 800 is
divided by 3: the gauge is set to the float64 `4691249611844267 / 2^44`, not to
400. -/
theorem tick_gauges_are_rounded :
    (tick { Aggregator.init with
        latencies := [Float64.fin 300, Float64.fin 500] }).metricsRequestsPerSecond
      = Float64.fin (3602879701896397 / 2 ^ 53) ∧
    (tick { Aggregator.init with
        latencies := [Float64.fin 300, Float64.fin 500] }).metricsRequestsPerSecond
      ≠ Float64.fin (2 / 5) ∧
    (tick { Aggregator.init with
        latencies := [Float64.fin 1, Float64.fin 1, Float64.fin 2] }).metricsLatencyPerRequest
      = Float64.fin (6004799503160661 / 2 ^ 52) ∧
    (tick { Aggregator.init with
        latencies := [Float64.fin 1, Float64.fin 1, Float64.fin 2] }).metricsLatencyPerRequest
      ≠ Float64.fin (4 / 3) ∧
    (tickInterleaved
        (drain Aggregator.init
          [Float64.fin 7, Float64.fin 300, Float64.fin 7, Float64.fin 500, Float64.fin 7])
        [Float64.fin 100] [] []).metricsLatencyPerRequest
      = Float64.fin (4691249611844267 / 2 ^ 44) ∧
    (tickInterleaved
        (drain Aggregator.init
          [Float64.fin 7, Float64.fin 300, Float64.fin 7, Float64.fin 500, Float64.fin 7])
        [Float64.fin 100] [] []).metricsLatencyPerRequest
      ≠ Float64.fin 400 := by
  have e₂ : Float64.ofRat (2 / 5) = Float64.fin (3602879701896397 / 2 ^ 53) := by
    have := ofRat_of_near (2 / 5) (-2) 7205759403792794 (by norm_num) (by norm_num)
      (by norm_num) (by norm_num) (by norm_num) (by norm_num) (by norm_num)
    rw [this]
    norm_num
  have e₃ : Float64.ofRat (4 / 3) = Float64.fin (6004799503160661 / 2 ^ 52) := by
    have := ofRat_of_near (4 / 3) 0 6004799503160661 (by norm_num) (by norm_num)
      (by norm_num) (by norm_num) (by norm_num) (by norm_num) (by norm_num)
    rw [this]
    norm_num
  have rate : (tick { Aggregator.init with
        latencies := [Float64.fin 300, Float64.fin 500] }).metricsRequestsPerSecond
      = Float64.fin (3602879701896397 / 2 ^ 53) := by
    unfold tick
    rw [tickInterleaved_rate_gauge]
    have hl : ((drain (tickSetLatency (drain (tickSum { Aggregator.init with
        latencies := [Float64.fin 300, Float64.fin 500] }) [])) []).latencies.length : ℤ)
        = ((2 : ℕ) : ℤ) := rfl
    rw [hl, ofInt_natCast 2 (by norm_num), div_fin_of_pos _ _ (by norm_num) (by norm_num)]
    norm_num
    exact e₂
  have lat : (tick { Aggregator.init with
        latencies := [Float64.fin 1, Float64.fin 1, Float64.fin 2] }).metricsLatencyPerRequest
      = Float64.fin (6004799503160661 / 2 ^ 52) := by
    unfold tick
    rw [tickInterleaved_latency_gauge]
    have hl : ((drain (tickSum { Aggregator.init with
        latencies := [Float64.fin 1, Float64.fin 1, Float64.fin 2] }) []).latencies.length : ℤ)
        = ((3 : ℕ) : ℤ) := rfl
    have hs : sumLatencies [Float64.fin 1, Float64.fin 1, Float64.fin 2] = Float64.fin 4 := by
      have a₁ := add_fin_natCast 0 1 (by norm_num)
      have a₂ := add_fin_natCast 1 1 (by norm_num)
      have a₃ := add_fin_natCast 2 2 (by norm_num)
      norm_num at a₁ a₂ a₃
      simp only [sumLatencies, Float64.zero, List.foldl_cons, List.foldl_nil, a₁, a₂, a₃]
    have hs' : sumLatencies ({ Aggregator.init with
        latencies := [Float64.fin 1, Float64.fin 1, Float64.fin 2] } : Aggregator).latencies
        = Float64.fin 4 := hs
    rw [hl, hs', ofInt_natCast 3 (by norm_num), div_fin_of_pos _ _ (by norm_num) (by norm_num)]
    norm_num
    exact e₃
  have e₄ : Float64.ofRat (800 / 3) = Float64.fin (4691249611844267 / 2 ^ 44) := by
    have := ofRat_of_near (800 / 3) 8 4691249611844267 (by norm_num) (by norm_num)
      (by norm_num) (by norm_num) (by norm_num) (by norm_num) (by norm_num)
    rw [this]
    norm_num
  have mid : (tickInterleaved
        (drain Aggregator.init
          [Float64.fin 7, Float64.fin 300, Float64.fin 7, Float64.fin 500, Float64.fin 7])
        [Float64.fin 100] [] []).metricsLatencyPerRequest
      = Float64.fin (4691249611844267 / 2 ^ 44) := by
    rw [tickInterleaved_latency_gauge]
    have hl : ((drain (tickSum (drain Aggregator.init
        [Float64.fin 7, Float64.fin 300, Float64.fin 7, Float64.fin 500, Float64.fin 7]))
        [Float64.fin 100]).latencies.length : ℤ) = ((3 : ℕ) : ℤ) := rfl
    have hs : sumLatencies [Float64.fin 300, Float64.fin 500] = Float64.fin 800 := by
      have a₁ := add_fin_natCast 0 300 (by norm_num)
      have a₂ := add_fin_natCast 300 500 (by norm_num)
      norm_num at a₁ a₂
      simp only [sumLatencies, Float64.zero, List.foldl_cons, List.foldl_nil, a₁, a₂]
    have hs' : sumLatencies (drain Aggregator.init
        [Float64.fin 7, Float64.fin 300, Float64.fin 7, Float64.fin 500, Float64.fin 7]).latencies
        = Float64.fin 800 := hs
    rw [hl, hs', ofInt_natCast 3 (by norm_num), div_fin_of_pos _ _ (by norm_num) (by norm_num)]
    norm_num
    exact e₄
  refine ⟨rate, ?_, lat, ?_, mid, ?_⟩
  · rw [rate]
    intro hc
    injection hc with hq
    norm_num at hq
  · rw [lat]
    intro hc
    injection hc with hq
    norm_num at hq
  · rw [mid]
    intro hc
    injection hc with hq
    norm_num at hq

/-- C2: a tick on an empty sample list divides `0.0` by `0.0`: the
average-latency gauge is set to `NaN`, not to 0, and the requests-per-second
gauge to 0. -/
theorem tick_empty_sets_nan (s : Aggregator) :
    (tick { s with latencies := [] }).metricsLatencyPerRequest = Float64.nan ∧
    (tick { s with latencies := [] }).metricsLatencyPerRequest ≠ Float64.fin 0 ∧
    (tick { s with latencies := [] }).metricsRequestsPerSecond = Float64.fin 0 := by
  have h0 : Float64.ofInt ((0 : ℕ) : ℤ) = Float64.fin 0 := by
    simpa using ofInt_natCast 0 (by norm_num)
  have lat : (tick { s with latencies := [] }).metricsLatencyPerRequest = Float64.nan := by
    unfold tick
    rw [tickInterleaved_latency_gauge]
    show Float64.div (Float64.fin 0) (Float64.ofInt ((0 : ℕ) : ℤ)) = _
    rw [h0]
    simp [Float64.div]
  have rate : (tick { s with latencies := [] }).metricsRequestsPerSecond = Float64.fin 0 := by
    unfold tick
    rw [tickInterleaved_rate_gauge]
    show Float64.div (Float64.ofInt ((0 : ℕ) : ℤ)) (Float64.fin 5) = _
    rw [h0]
    simp [Float64.div]
  refine ⟨lat, ?_, rate⟩
  rw [lat]
  simp

/-- C3: two samples delivered to the fresh drain loop, no tick in between, leave
one sample in the accumulation list: the first one is lost. -/
theorem drain_two_samples_keeps_one :
    (drain Aggregator.init [Float64.fin 100, Float64.fin 200]).latencies = [Float64.fin 200] ∧
    (drain Aggregator.init [Float64.fin 100, Float64.fin 200]).discarded = [Float64.fin 100] ∧
    (drain Aggregator.init [Float64.fin 100]).latencies = [] := by
  refine ⟨?_, ?_, ?_⟩ <;> rfl

theorem positions_cons {α : Type} (d : List α) (v : α) :
    evenPositions (v :: d) = oddPositions d ∧ oddPositions (v :: d) = v :: evenPositions d := by
  induction d using evenPositions.induct generalizing v with
  | case1 => exact ⟨rfl, rfl⟩
  | case2 a => exact ⟨rfl, rfl⟩
  | case3 a b rest ih =>
    constructor
    · show a :: evenPositions (b :: rest) = a :: oddPositions rest
      rw [(ih b).1]
    · show v :: oddPositions (b :: rest) = v :: b :: evenPositions rest
      rw [(ih b).2]

theorem evenPositions_length {α : Type} (l : List α) :
    (evenPositions l).length = l.length / 2 ∧ (oddPositions l).length = (l.length + 1) / 2 := by
  induction l using evenPositions.induct with
  | case1 => simp [evenPositions, oddPositions]
  | case2 a => simp [evenPositions, oddPositions]
  | case3 a b rest ih =>
    simp only [evenPositions, oddPositions, List.length_cons, ih.1, ih.2]
    omega

theorem evenPositions_getElem? {α : Type} (l : List α) (i : Nat) :
    (evenPositions l)[i]? = l[2 * i + 1]? ∧ (oddPositions l)[i]? = l[2 * i]? := by
  induction l using evenPositions.induct generalizing i with
  | case1 => simp [evenPositions, oddPositions]
  | case2 a =>
    cases i with
    | zero => simp [evenPositions, oddPositions]
    | succ j =>
      have e2 : 2 * (j + 1) = (2 * j + 1) + 1 := by omega
      simp [evenPositions, oddPositions, e2]
  | case3 a b rest ih =>
    cases i with
    | zero => simp [evenPositions, oddPositions]
    | succ j =>
      have e1 : 2 * (j + 1) + 1 = (2 * j + 1) + 1 + 1 := by omega
      have e2 : 2 * (j + 1) = (2 * j) + 1 + 1 := by omega
      simp only [evenPositions, oddPositions, e1, e2, List.getElem?_cons_succ, (ih j).1, (ih j).2]
      exact ⟨trivial, trivial⟩

theorem drain_lists (s : Aggregator) (delivered : List Float64) :
    (drain s delivered).latencies = s.latencies ++
      (if s.drainAt = DrainPc.rangeRecv then evenPositions delivered
        else oddPositions delivered) ∧
    (drain s delivered).discarded = s.discarded ++
      (if s.drainAt = DrainPc.rangeRecv then oddPositions delivered
        else evenPositions delivered) := by
  induction delivered generalizing s with
  | nil =>
    have e : drain s [] = s := rfl
    rw [e]
    cases s.drainAt <;> simp [evenPositions, oddPositions]
  | cons v d ih =>
    have e : drain s (v :: d) = drain (drainRecv s v) d := rfl
    rw [e, (ih _).1, (ih _).2, (positions_cons d v).1, (positions_cons d v).2]
    unfold drainRecv
    cases s.drainAt <;> simp

theorem drain_drainAt (s : Aggregator) (delivered : List Float64) :
    (drain s delivered).drainAt = s.drainAt ↔ delivered.length % 2 = 0 := by
  induction delivered generalizing s with
  | nil => simp [drain]
  | cons v d ih =>
    have e : drain s (v :: d) = drain (drainRecv s v) d := rfl
    have hne : ∀ x : DrainPc, x = s.drainAt ↔ ¬ x = (drainRecv s v).drainAt := by
      intro x
      unfold drainRecv
      cases hs : s.drainAt <;> cases x <;> simp
    rw [e, hne, ih, List.length_cons]
    omega

/-- C10, as the code has it: the drain loop receives twice per appended
element.  Samples `s1..sN` delivered with no tick in between extend the
accumulation list by `s2, s4, ...` (`N / 2` samples) when the loop waits at its
head, the samples at the odd positions being received and stored nowhere; when
the loop waits inside its body they extend the list by `s1, s3, ...`
(`(N + 1) / 2` samples) and the samples at the even positions are the ones
stored nowhere.  The loop is back where it was after an even number of receives
and a tick does not move it, so it waits inside its body whenever an odd number
of samples has been received since the process started. -/
theorem drain_keeps_alternate_positions (s : Aggregator) (delivered : List Float64) :
    (drain s delivered).latencies = s.latencies ++
      (if s.drainAt = DrainPc.rangeRecv then evenPositions delivered
        else oddPositions delivered) ∧
    (drain s delivered).discarded = s.discarded ++
      (if s.drainAt = DrainPc.rangeRecv then oddPositions delivered
        else evenPositions delivered) ∧
    (drain (tick s) delivered).latencies =
      (if s.drainAt = DrainPc.rangeRecv then evenPositions delivered
        else oddPositions delivered) ∧
    ((drain s delivered).drainAt = s.drainAt ↔ delivered.length % 2 = 0) ∧
    (tick s).drainAt = s.drainAt ∧
    (evenPositions delivered).length = delivered.length / 2 ∧
    (oddPositions delivered).length = (delivered.length + 1) / 2 ∧
    (∀ i, (evenPositions delivered)[i]? = delivered[2 * i + 1]?) ∧
    (∀ i, (oddPositions delivered)[i]? = delivered[2 * i]?) := by
  refine ⟨(drain_lists s delivered).1, (drain_lists s delivered).2, ?_,
    drain_drainAt s delivered, rfl,
    (evenPositions_length delivered).1, (evenPositions_length delivered).2,
    fun i => (evenPositions_getElem? delivered i).1,
    fun i => (evenPositions_getElem? delivered i).2⟩
  rw [(drain_lists _ delivered).1]
  show [] ++ (if s.drainAt = DrainPc.rangeRecv then _ else _) = _
  rw [List.nil_append]

/-- C10, as stated, fails: after a window in which one sample was delivered, the
samples 1, 2, 3 delivered with no tick in between leave the accumulation list
holding 1 and 3, the odd positions, not the single sample 2. -/
theorem drain_after_odd_window :
    (drain (tick (drain Aggregator.init [Float64.fin 9]))
        [Float64.fin 1, Float64.fin 2, Float64.fin 3]).latencies
      = [Float64.fin 1, Float64.fin 3] ∧
    (drain (tick (drain Aggregator.init [Float64.fin 9]))
        [Float64.fin 1, Float64.fin 2, Float64.fin 3]).latencies
      ≠ [Float64.fin 2] := by
  have h : (drain (tick (drain Aggregator.init [Float64.fin 9]))
      [Float64.fin 1, Float64.fin 2, Float64.fin 3]).latencies
      = [Float64.fin 1, Float64.fin 3] := rfl
  refine ⟨h, ?_⟩
  rw [h]
  simp

theorem endpointOf_of_ne (b : String) (h₀ : b ≠ "") (h₁ : b ≠ "/") :
    endpointOf b = "//kanban/save" := by
  have hs : HasSuffix "/" b = false := by
    rcases b with ⟨data⟩
    match data, h₀, h₁ with
    | [], h₀, _ => exact absurd rfl h₀
    | [c], _, h₁ =>
      have hc : c ≠ '/' := fun hc => h₁ (by rw [hc])
      simp [HasSuffix, String.length]
      intro h
      exact hc (by simpa using h.symm)
    | c :: d :: rest, _, _ => simp [HasSuffix, String.length]
  unfold endpointOf TrimSuffix
  rw [hs]
  rfl

/-- C4: for `SERVER_BASE_URL = "http://localhost:8080"` the URL the Workers post
to is `"//kanban/save"`: the arguments of `strings.TrimSuffix` are swapped, so
the base URL is dropped. -/
theorem endpointOf_drops_base_url :
    endpointOf "http://localhost:8080" = "//kanban/save" ∧
    endpointOf "http://localhost:8080" ≠ "http://localhost:8080/kanban/save" := by
  decide

/-- C6: when `SERVER_BASE_URL` or `SESSION_SECRET` reads as empty, `main` ends in
a panic with neither the ramp controller (hence no Worker and no request) nor
the metrics listener started before it; when both are non-empty `main` does not
panic and goes on to start both. -/
theorem main_startup_checks (getenv : String → String) :
    if getenv "SERVER_BASE_URL" = "" ∨ getenv "SESSION_SECRET" = "" then
      (∃ before msg, main getenv = before ++ [Action.abort msg]) ∧
      (main getenv).any Action.isGoRampController = false ∧
      (main getenv).any Action.isListenAndServe = false
    else
      (main getenv).any Action.isAbort = false ∧
      main getenv = mainPrelude ++
        [Action.getenv "SERVER_BASE_URL", Action.getenv "SESSION_SECRET",
          Action.goRampController (endpointOf (getenv "SERVER_BASE_URL")) (getenv "SESSION_SECRET"),
          Action.listenAndServe ":2112"] := by
  by_cases h1 : getenv "SERVER_BASE_URL" = ""
  · rw [if_pos (Or.inl h1)]
    have hm : main getenv = mainPrelude ++
        [Action.getenv "SERVER_BASE_URL", Action.abort "SERVER_BASE_URL is not set"] := by
      simp [main, h1]
    refine ⟨⟨mainPrelude ++ [Action.getenv "SERVER_BASE_URL"], "SERVER_BASE_URL is not set", ?_⟩,
      ?_, ?_⟩
    · rw [hm]; simp
    · rw [hm]; rfl
    · rw [hm]; rfl
  · by_cases h2 : getenv "SESSION_SECRET" = ""
    · rw [if_pos (Or.inr h2)]
      have hm : main getenv = mainPrelude ++
          [Action.getenv "SERVER_BASE_URL", Action.getenv "SESSION_SECRET",
            Action.abort "SESSION_SECRET is not set"] := by
        simp [main, h1, h2]
      refine ⟨⟨mainPrelude ++ [Action.getenv "SERVER_BASE_URL", Action.getenv "SESSION_SECRET"],
        "SESSION_SECRET is not set", ?_⟩, ?_, ?_⟩
      · rw [hm]; simp
      · rw [hm]; rfl
      · rw [hm]; rfl
    · rw [if_neg (by tauto)]
      have hm : main getenv = mainPrelude ++
          [Action.getenv "SERVER_BASE_URL", Action.getenv "SESSION_SECRET",
            Action.goRampController (endpointOf (getenv "SERVER_BASE_URL"))
              (getenv "SESSION_SECRET"),
            Action.listenAndServe ":2112"] := by
        simp [main, h1, h2]
      refine ⟨?_, hm⟩
      rw [hm]; rfl

/-! ## Theorems: request worker -/

/-- C7: an iteration of the Worker's loop sends no sample when the request or
the reading of the body fails and exactly one sample when both succeed; in every
case the loop goes on to its next iteration, so the loop never exits. -/
theorem worker_iteration_samples (a : Attempt) (attempts : List Attempt) :
    (workerIteration a).sent.length = (if a.doFails || a.readFails then 0 else 1) ∧
    (workerIteration a).control = Control.nextIteration ∧
    (workerLoop attempts).2 = [] ∧
    (workerLoop attempts).1.length
      = (attempts.filter (fun b => !(b.doFails || b.readFails))).length := by
  have iter : ∀ b : Attempt,
      (workerIteration b).sent.length = (if b.doFails || b.readFails then 0 else 1) ∧
      (workerIteration b).control = Control.nextIteration := by
    intro b
    unfold workerIteration
    cases b.doFails <;> cases b.readFails <;> simp
  refine ⟨(iter a).1, (iter a).2, ?_, ?_⟩
  · induction attempts with
    | nil => rfl
    | cons b rest ih => simp only [workerLoop, (iter b).2, ih]
  · induction attempts with
    | nil => rfl
    | cons b rest ih =>
      simp only [workerLoop, (iter b).2, List.length_append, ih, (iter b).1, List.filter_cons]
      cases b.doFails <;> cases b.readFails <;> simp +arith

/-! ## Theorems: ramp controller -/

theorem spawnWorkers_eq (r : Ramp) :
    spawnWorkers r = { r with workersSpawned := r.workersSpawned + 10 } := rfl

theorem wrapInt64_add_wrap (a b : Int) : wrapInt64 (wrapInt64 a + b) = wrapInt64 (a + b) := by
  unfold wrapInt64
  omega

theorem wrapInt64_of_range (a : Int) (h₀ : -2 ^ 63 ≤ a) (h₁ : a < 2 ^ 63) : wrapInt64 a = a := by
  unfold wrapInt64
  omega

theorem rampAfter_closed (t : Nat) :
    rampAfter t =
      { currClientCount := wrapInt64 (10 * ((t : Int) + 1))
        metricsClientCount := Float64.ofInt (wrapInt64 (10 * ((t : Int) + 1)))
        workersSpawned := 10 + 10 * t
        intervalsSlept := t } := by
  induction t with
  | zero => rfl
  | succ t ih =>
    have e : (10 : Int) * (((t + 1 : Nat) : Int) + 1) = 10 * ((t : Int) + 1) + 10 := by
      push_cast; ring
    simp only [rampAfter, ih, rampSpawn, rampSleep, spawnWorkers_eq, wrapInt64_add_wrap, e]
    congr 1

/-- C5: once the spawn iteration after `t` full ramp intervals is done, the
Workers spawned and the value published to the client-count gauge both equal
`10 + 10*t`, and the published value has not decreased at any iteration up to
there.  The statement covers every `t` with `10 + 10*t ≤ 2^54`, that is more
than `3 * 10^10` years of ten-minute ramp intervals and more Workers than a
64-bit address space can hold; `2^54` is where a float64 stops holding every
such count exactly. -/
theorem ramp_count_in_range (t : Nat) (h : 10 + 10 * t ≤ 2 ^ 54) :
    (rampAfter t).intervalsSlept = t ∧
    (rampAfter t).workersSpawned = 10 + 10 * t ∧
    (rampAfter t).metricsClientCount = Float64.fin (10 + 10 * (t : ℚ)) ∧
    ∀ u, u < t →
      Float64.le (rampAfter u).metricsClientCount (rampAfter (u + 1)).metricsClientCount
        = true := by
  have val : ∀ u, u ≤ t →
      (rampAfter u).metricsClientCount = Float64.fin (10 + 10 * (u : ℚ)) := by
    intro u hu
    rw [rampAfter_closed]
    have hw : wrapInt64 (10 * ((u : Int) + 1)) = 10 * ((u : Int) + 1) := by
      apply wrapInt64_of_range <;> omega
    have hq : ((10 * ((u : Int) + 1) : Int) : ℚ) = 10 + 10 * (u : ℚ) := by
      push_cast
      ring
    have hx : Float64.ofRat ((10 * ((u : Int) + 1) : Int) : ℚ)
        = Float64.fin ((10 * ((u : Int) + 1) : Int) : ℚ) := by
      have hn₀ : (0 : Int) ≤ 10 * ((u : Int) + 1) := by omega
      have hp : (2 : Int) ^ (53 + 1) = 18014398509481984 := by norm_num
      apply ofRat_intCast _ 1
      · rw [abs_of_nonneg hn₀, hp]
        omega
      · exact Dvd.intro (5 * ((u : Int) + 1)) (by ring)
      · norm_num
    simp only [hw, Float64.ofInt]
    rw [hx, hq]
  refine ⟨by rw [rampAfter_closed], by rw [rampAfter_closed], val t le_rfl, ?_⟩
  intro u hu
  rw [val u (by omega), val (u + 1) (by omega)]
  simp only [Float64.le, decide_eq_true_eq]
  push_cast
  linarith

theorem ramp_count_in_range_witness :
    (rampAfter 2).workersSpawned = 10 + 10 * 2 ∧
    (rampAfter 2).metricsClientCount = Float64.fin (10 + 10 * ((2 : Nat) : ℚ)) :=
  ⟨(ramp_count_in_range 2 (by norm_num)).2.1, (ramp_count_in_range 2 (by norm_num)).2.2.1⟩

/-! ## Theorems: payload generator -/

theorem randomItems_length (uuid : Nat → String) (i calls : Nat) :
    (randomItems uuid i calls).1.length = 20 := by
  unfold randomItems
  have key : ∀ (js : List Nat) (acc : List KanbanItemReqRespBody × Nat),
      (js.foldl (setItem uuid i) acc).1.length = acc.1.length := by
    intro js
    induction js with
    | nil => intro acc; rfl
    | cons j js ih => intro acc; rw [List.foldl_cons, ih]; simp [setItem]
  rw [key]
  simp

theorem setGroup_length (uuid : Nat → String) (acc : List KanbanGroupReqRespBody × Nat)
    (i : Nat) : (setGroup uuid acc i).1.length = acc.1.length := by
  simp [setGroup]

theorem setGroup_getElem?_self (uuid : Nat → String) (acc : List KanbanGroupReqRespBody × Nat)
    (i : Nat) (h : i < acc.1.length) :
    ∃ g, (setGroup uuid acc i).1[i]? = some g ∧ g.Items.length = 20 := by
  refine ⟨⟨uuid (randomItems uuid i acc.2).2, (randomItems uuid i acc.2).1⟩, ?_, ?_⟩
  · simp [setGroup, h]
  · dsimp only
    exact randomItems_length uuid i acc.2

theorem setGroup_getElem?_ne (uuid : Nat → String) (acc : List KanbanGroupReqRespBody × Nat)
    (i k : Nat) (h : i ≠ k) : (setGroup uuid acc i).1[k]? = acc.1[k]? := by
  simp [setGroup, List.getElem?_set_ne h]

theorem randomGroups_fold_length (uuid : Nat → String) (is : List Nat)
    (acc : List KanbanGroupReqRespBody × Nat) :
    (is.foldl (setGroup uuid) acc).1.length = acc.1.length := by
  induction is generalizing acc with
  | nil => rfl
  | cons j js ih => rw [List.foldl_cons, ih, setGroup_length]

theorem randomGroups_length (uuid : Nat → String) :
    (randomGroups uuid).1.length = 10 := by
  unfold randomGroups
  rw [randomGroups_fold_length]
  simp

theorem randomGroups_fold_items (uuid : Nat → String) (is : List Nat)
    (acc : List KanbanGroupReqRespBody × Nat) (k : Nat) (g : KanbanGroupReqRespBody)
    (hg : (is.foldl (setGroup uuid) acc).1[k]? = some g)
    (hk : k ∈ is ∨ ∃ g₀, acc.1[k]? = some g₀ ∧ g₀.Items.length = 20) :
    g.Items.length = 20 := by
  induction is generalizing acc with
  | nil =>
    rcases hk with hk | ⟨g₀, h₀, hlen⟩
    · simp at hk
    · simp only [List.foldl_nil] at hg
      rw [hg] at h₀
      cases h₀
      exact hlen
  | cons i is ih =>
    rw [List.foldl_cons] at hg
    have hklt : k < acc.1.length := by
      have hlt := (List.getElem?_eq_some_iff.1 hg).1
      rwa [randomGroups_fold_length, setGroup_length] at hlt
    refine ih _ hg ?_
    by_cases hmem : k ∈ is
    · exact Or.inl hmem
    · right
      by_cases hki : i = k
      · subst hki
        exact setGroup_getElem?_self uuid acc i hklt
      · rcases hk with hk | ⟨g₀, h₀, hlen⟩
        · rcases List.mem_cons.1 hk with h | h
          · exact absurd h.symm hki
          · exact absurd h hmem
        · exact ⟨g₀, by rw [setGroup_getElem?_ne uuid acc i k hki, h₀], hlen⟩

theorem randomGroups_items (uuid : Nat → String) :
    ∀ g ∈ (randomGroups uuid).1, g.Items.length = 20 := by
  intro g hg
  obtain ⟨k, hk⟩ := List.mem_iff_getElem?.1 hg
  refine randomGroups_fold_items uuid (List.range 10) _ k g hk (Or.inl ?_)
  have hlt := (List.getElem?_eq_some_iff.1 hk).1
  rw [randomGroups_length] at hlt
  exact List.mem_range.2 hlt

/-- C9: whatever strings `uuid.New()` yields, `RandomKanbanTable` returns a
table of exactly 10 groups, each of exactly 20 items, 200 items in all. -/
theorem RandomKanbanTable_shape (uuid : Nat → String) :
    (RandomKanbanTable uuid).Groups.length = 10 ∧
    (∀ g ∈ (RandomKanbanTable uuid).Groups, g.Items.length = 20) ∧
    ((RandomKanbanTable uuid).Groups.map (fun g => g.Items.length)).sum = 200 := by
  have hl : (RandomKanbanTable uuid).Groups.length = 10 := randomGroups_length uuid
  have hi : ∀ g ∈ (RandomKanbanTable uuid).Groups, g.Items.length = 20 := randomGroups_items uuid
  refine ⟨hl, hi, ?_⟩
  have hm : (RandomKanbanTable uuid).Groups.map (fun g => g.Items.length)
      = List.replicate 10 20 := by
    rw [List.eq_replicate_iff]
    refine ⟨by rw [List.length_map, hl], ?_⟩
    intro n hn
    rw [List.mem_map] at hn
    obtain ⟨g, hg, rfl⟩ := hn
    exact hi g hg
  rw [hm]
  rfl

end TowdBench
